import Mathlib

/-!
# Verification of the NomadXD/backstage-plugins status-derivation and aggregation logic

This development gives a shallow embedding, in Lean 4, of the workflow-run
status derivation and the fleet-aggregation logic of the backstage-plugins
repository, and proves the claims of the specification against it.

Embedded source locations:
* `plugins/openchoreo-backend/src/services/transformers/workflow-run.ts`
  (`transformComponentWorkflowRun`, status computation, lines 21-52);
* the CI backend's `WorkflowService` module (`deriveWorkflowRunStatus`);
* `PlatformEnvironmentInfoService` (`fetchDataplanesWithEnvironments`,
  `fetchComponentCountsPerEnvironment`, `fetchHealthyWorkloadCount`);
* `plugins/openchoreo-backend/src/services/DataPlaneService/DataPlaneInfoService.ts`
  (`listDataPlanes`).

JavaScript optional fields are embedded as `Option`; JavaScript truthiness of
an optional string (used for `completedAt`, `startedAt`, condition `reason`
and binding `environment`) is `strTruthy`: an absent string and the empty
string are both falsy.
-/

/-- JavaScript truthiness of an optional string field: `undefined` and `""`
are falsy, every other string is truthy. -/
def strTruthy : Option String → Bool
  | none => false
  | some s => s != ""

/-- One entry of `run.status.conditions`:
`{type: string, status: string, reason?: string}`. -/
structure WfCondition where
  type : String
  status : String
  reason : Option String
deriving Repr, DecidableEq

/-- One entry of `run.status.tasks`: `{phase?: string}` (the `completedAt`
field that the transformer's cast also mentions is never read by the status
computation and is omitted). -/
structure WfTask where
  phase : Option String
deriving Repr, DecidableEq

/-- The `status` object of a raw K8s-style WorkflowRun; every field is
optional in the source. -/
structure WfRunStatus where
  completedAt : Option String
  startedAt : Option String
  conditions : Option (List WfCondition)
  tasks : Option (List WfTask)
deriving Repr, DecidableEq

/-- A raw K8s-style WorkflowRun, restricted to the fields the status
derivation reads: both implementations only access `run.status`. -/
structure RunRecord where
  status : Option WfRunStatus
deriving Repr, DecidableEq

/-- `run.status?.conditions ?? []` (also the result of
`run.status?.conditions?.find` being applied to the same list). -/
def RunRecord.conditionsList (run : RunRecord) : List WfCondition :=
  match run.status with
  | none => []
  | some st => st.conditions.getD []

/-- `(run.status?.tasks ?? [])`. -/
def RunRecord.tasksList (run : RunRecord) : List WfTask :=
  match run.status with
  | none => []
  | some st => st.tasks.getD []

/-- Truthiness of `run.status?.completedAt`. -/
def RunRecord.completedAtTruthy (run : RunRecord) : Bool :=
  match run.status with
  | none => false
  | some st => strTruthy st.completedAt

/-- Truthiness of `run.status?.startedAt`. -/
def RunRecord.startedAtTruthy (run : RunRecord) : Bool :=
  match run.status with
  | none => false
  | some st => strTruthy st.startedAt

/-- `conditions.find(c => c.type === 'Ready')`. -/
def RunRecord.readyCondition (run : RunRecord) : Option WfCondition :=
  run.conditionsList.find? (fun c => c.type == "Ready")

/-- `t.phase === 'Failed' || t.phase === 'Error'`. -/
def taskFailedOrError (t : WfTask) : Bool :=
  t.phase == some "Failed" || t.phase == some "Error"

/-- `deriveWorkflowRunStatus` from the CI backend's `WorkflowService` module,
lines 40-78: completedAt first, then the Ready condition, then the task-phase
and timing fallback (`every && length > 0` operand order as in the source). -/
def deriveWorkflowRunStatus (run : RunRecord) : String :=
  if run.completedAtTruthy then
    if run.tasksList.any taskFailedOrError then "Failed"
    else
      match run.readyCondition.bind (fun c => c.reason) with
      | some r => if r != "" && r != "Running" && r != "Pending" then r else "Succeeded"
      | none => "Succeeded"
  else
    match run.readyCondition with
    | some c =>
      match c.reason with
      | some r =>
        if r != "" then r
        else if c.status == "True" then "Succeeded" else "Running"
      | none => if c.status == "True" then "Succeeded" else "Running"
    | none =>
      if run.tasksList.any taskFailedOrError then "Failed"
      else if run.tasksList.all (fun t => t.phase == some "Succeeded")
          && decide (run.tasksList.length > 0) then "Succeeded"
      else if run.tasksList.any (fun t => t.phase == some "Running") then "Running"
      else if run.startedAtTruthy then "Running"
      else "Pending"

/-- The inline status computation of `transformComponentWorkflowRun`
(`transformers/workflow-run.ts`, lines 27-52). Identical rule chain, except
the all-tasks-succeeded test is written `length > 0 && every` there. -/
def transformComponentWorkflowRunStatus (run : RunRecord) : String :=
  if run.completedAtTruthy then
    if run.tasksList.any taskFailedOrError then "Failed"
    else
      match run.readyCondition.bind (fun c => c.reason) with
      | some r => if r != "" && r != "Running" && r != "Pending" then r else "Succeeded"
      | none => "Succeeded"
  else
    match run.readyCondition with
    | some c =>
      match c.reason with
      | some r =>
        if r != "" then r
        else if c.status == "True" then "Succeeded" else "Running"
      | none => if c.status == "True" then "Succeeded" else "Running"
    | none =>
      if run.tasksList.any taskFailedOrError then "Failed"
      else if decide (run.tasksList.length > 0)
          && run.tasksList.all (fun t => t.phase == some "Succeeded") then "Succeeded"
      else if run.tasksList.any (fun t => t.phase == some "Running") then "Running"
      else if run.startedAtTruthy then "Running"
      else "Pending"

/-- Characterization of the deriver's completed branch (source lines 47-56). -/
lemma derive_of_completed (run : RunRecord) (hc : run.completedAtTruthy = true) :
    deriveWorkflowRunStatus run =
      if run.tasksList.any taskFailedOrError then "Failed"
      else
        match run.readyCondition.bind (fun c => c.reason) with
        | some r =>
          if r != "" && r != "Running" && r != "Pending" then r else "Succeeded"
        | none => "Succeeded" := by
  unfold deriveWorkflowRunStatus
  rw [hc]
  simp

/-- Characterization of the deriver's Ready-condition branch
(source lines 59-64): the result depends only on the Ready condition. -/
lemma derive_of_ready (run : RunRecord) (hc : run.completedAtTruthy = false)
    (c : WfCondition) (hrc : run.readyCondition = some c) :
    deriveWorkflowRunStatus run =
      match c.reason with
      | some r =>
        if r != "" then r
        else if c.status == "True" then "Succeeded" else "Running"
      | none => if c.status == "True" then "Succeeded" else "Running" := by
  unfold deriveWorkflowRunStatus
  rw [hc, hrc]
  simp

/-- Characterization of the deriver's task-phase fallback branch
(source lines 66-77). -/
lemma derive_of_fallback (run : RunRecord) (hc : run.completedAtTruthy = false)
    (hrc : run.readyCondition = none) :
    deriveWorkflowRunStatus run =
      if run.tasksList.any taskFailedOrError then "Failed"
      else if run.tasksList.all (fun t => t.phase == some "Succeeded")
          && decide (run.tasksList.length > 0) then "Succeeded"
      else if run.tasksList.any (fun t => t.phase == some "Running") then "Running"
      else if run.startedAtTruthy then "Running"
      else "Pending" := by
  unfold deriveWorkflowRunStatus
  rw [hc, hrc]
  simp

/-- The two status implementations agree pointwise: their rule chains are
identical up to the commuted conjunction in the all-tasks-succeeded test. -/
lemma transform_eq_derive (run : RunRecord) :
    transformComponentWorkflowRunStatus run = deriveWorkflowRunStatus run := by
  unfold transformComponentWorkflowRunStatus deriveWorkflowRunStatus
  rw [Bool.and_comm]

/-- If the Ready condition's reason projects to `some r`, a Ready condition
exists and carries that reason. -/
lemma readyReason_some {run : RunRecord} {r : String}
    (h : run.readyCondition.bind (fun c => c.reason) = some r) :
    ∃ c, run.readyCondition = some c ∧ c.reason = some r := by
  cases hrc : run.readyCondition with
  | none => rw [hrc] at h; simp at h
  | some c => exact ⟨c, rfl, by rw [hrc] at h; simpa using h⟩

/-- Every output of the deriver is one of the four fixed labels or a
non-empty reason taken verbatim from the record's Ready condition. -/
lemma derive_output_cases (run : RunRecord) :
    deriveWorkflowRunStatus run = "Pending" ∨ deriveWorkflowRunStatus run = "Running"
    ∨ deriveWorkflowRunStatus run = "Succeeded" ∨ deriveWorkflowRunStatus run = "Failed"
    ∨ ∃ c r, run.readyCondition = some c ∧ c.reason = some r ∧ r ≠ ""
        ∧ deriveWorkflowRunStatus run = r := by
  by_cases hc : run.completedAtTruthy = true
  · have hd := derive_of_completed run hc
    by_cases ht : run.tasksList.any taskFailedOrError = true
    · exact Or.inr (Or.inr (Or.inr (Or.inl (by rw [hd]; simp [ht]))))
    · rw [Bool.not_eq_true] at ht
      cases hb : run.readyCondition.bind (fun c => c.reason) with
      | none => exact Or.inr (Or.inr (Or.inl (by rw [hd]; simp [ht, hb])))
      | some r =>
        by_cases hg : (r != "" && r != "Running" && r != "Pending") = true
        · refine Or.inr (Or.inr (Or.inr (Or.inr ?_)))
          obtain ⟨c, hrc, hre⟩ := readyReason_some hb
          refine ⟨c, r, hrc, hre, ?_, by rw [hd]; simp [ht, hb, hg]⟩
          intro h0
          subst h0
          simp at hg
        · rw [Bool.not_eq_true] at hg
          exact Or.inr (Or.inr (Or.inl (by rw [hd]; simp [ht, hb, hg])))
  · rw [Bool.not_eq_true] at hc
    cases hrc : run.readyCondition with
    | some c =>
      have hd := derive_of_ready run hc c hrc
      cases hre : c.reason with
      | none =>
        by_cases hs : (c.status == "True") = true
        · exact Or.inr (Or.inr (Or.inl (by rw [hd]; simp [hre, hs])))
        · rw [Bool.not_eq_true] at hs
          exact Or.inr (Or.inl (by rw [hd]; simp [hre, hs]))
      | some r =>
        by_cases hr0 : r = ""
        · subst hr0
          by_cases hs : (c.status == "True") = true
          · exact Or.inr (Or.inr (Or.inl (by rw [hd]; simp [hre, hs])))
          · rw [Bool.not_eq_true] at hs
            exact Or.inr (Or.inl (by rw [hd]; simp [hre, hs]))
        · refine Or.inr (Or.inr (Or.inr (Or.inr ⟨c, r, rfl, hre, hr0, ?_⟩)))
          rw [hd]
          simp [hre, hr0]
    | none =>
      have hd := derive_of_fallback run hc hrc
      by_cases h1 : run.tasksList.any taskFailedOrError = true
      · exact Or.inr (Or.inr (Or.inr (Or.inl (by rw [hd]; simp [h1]))))
      · rw [Bool.not_eq_true] at h1
        by_cases h2 : (run.tasksList.all (fun t => t.phase == some "Succeeded")
            && decide (run.tasksList.length > 0)) = true
        · exact Or.inr (Or.inr (Or.inl (by rw [hd]; simp [h1, h2])))
        · rw [Bool.not_eq_true] at h2
          by_cases h3 : run.tasksList.any (fun t => t.phase == some "Running") = true
          · exact Or.inr (Or.inl (by rw [hd]; simp [h1, h2, h3]))
          · rw [Bool.not_eq_true] at h3
            by_cases h4 : run.startedAtTruthy = true
            · exact Or.inr (Or.inl (by rw [hd]; simp [h1, h2, h3, h4]))
            · rw [Bool.not_eq_true] at h4
              exact Or.inl (by rw [hd]; simp [h1, h2, h3, h4])

/-- The deriver never returns the empty string. -/
lemma derive_ne_empty (run : RunRecord) : deriveWorkflowRunStatus run ≠ "" := by
  rcases derive_output_cases run with h | h | h | h | ⟨c, r, _, _, hr, h⟩ <;> rw [h]
  · decide
  · decide
  · decide
  · decide
  · exact hr

/-- A completed run with a stale `Running` Ready condition and all tasks
succeeded (used to witness C1). -/
def staleRunningRun : RunRecord :=
  ⟨some ⟨some "2024-01-01T00:00:00Z", none,
    some [⟨"Ready", "False", some "Running"⟩], some [⟨some "Succeeded"⟩]⟩⟩

/-- C1: for every RunRecord with `completedAt` set, the deriver returns
`Failed` if any task phase is `Failed` or `Error` (regardless of conditions);
otherwise the Ready condition's reason verbatim when that reason is present
(non-empty, per JavaScript truthiness) and neither `Running` nor `Pending`;
otherwise `Succeeded`. -/
theorem C1_completed_run_status (run : RunRecord)
    (hc : run.completedAtTruthy = true) :
    (run.tasksList.any taskFailedOrError = true →
        deriveWorkflowRunStatus run = "Failed")
    ∧ (run.tasksList.any taskFailedOrError = false →
        ∀ r, run.readyCondition.bind (fun c => c.reason) = some r →
          r ≠ "" → r ≠ "Running" → r ≠ "Pending" →
          deriveWorkflowRunStatus run = r)
    ∧ (run.tasksList.any taskFailedOrError = false →
        (∀ r, run.readyCondition.bind (fun c => c.reason) = some r →
          r = "" ∨ r = "Running" ∨ r = "Pending") →
        deriveWorkflowRunStatus run = "Succeeded") := by
  have hd := derive_of_completed run hc
  refine ⟨fun ht => ?_, fun ht r hr h1 h2 h3 => ?_, fun ht hall => ?_⟩
  · rw [hd]; simp [ht]
  · rw [hd]; simp [ht, hr, h1, h2, h3]
  · rw [hd]
    cases hb : run.readyCondition.bind (fun c => c.reason) with
    | none => simp [ht, hb]
    | some r =>
      rcases hall r hb with h0 | h0 | h0 <;> subst h0 <;> simp [ht]

/-- C1 witness: `staleRunningRun` has `completedAt` set, a Ready condition
with reason `Running`, all tasks `Succeeded`, and derives `Succeeded`. -/
theorem C1_completed_run_status_witness :
    staleRunningRun.completedAtTruthy = true
    ∧ deriveWorkflowRunStatus staleRunningRun = "Succeeded" := by
  refine ⟨by decide, ?_⟩
  refine (C1_completed_run_status staleRunningRun (by decide)).2.2 (by decide) ?_
  intro r hr
  have hb : staleRunningRun.readyCondition.bind (fun c => c.reason)
      = some "Running" := by decide
  rw [hb] at hr
  exact Or.inr (Or.inl (Option.some.inj hr).symm)

/-- An uncompleted run whose Ready condition has status `True` and no reason
(used to witness C2). -/
def readyTrueNoReasonRun : RunRecord :=
  ⟨some ⟨none, none, some [⟨"Ready", "True", none⟩], some [⟨some "Failed"⟩]⟩⟩

/-- C2: for every RunRecord with no `completedAt` but with a Ready condition,
the deriver returns that condition's reason when present (non-empty, per
JavaScript truthiness); otherwise `Succeeded` when the condition's status is
`"True"` and `Running` otherwise. The right-hand sides depend only on the
condition, so task phases and `startedAt` are irrelevant here. -/
theorem C2_ready_condition_status (run : RunRecord) (c : WfCondition)
    (hc : run.completedAtTruthy = false) (hrc : run.readyCondition = some c) :
    (∀ r, c.reason = some r → r ≠ "" → deriveWorkflowRunStatus run = r)
    ∧ ((c.reason = none ∨ c.reason = some "") →
        deriveWorkflowRunStatus run =
          (if c.status == "True" then "Succeeded" else "Running")) := by
  have hd := derive_of_ready run hc c hrc
  constructor
  · intro r hre hne
    rw [hd]
    simp [hre, hne]
  · rintro (hre | hre) <;> rw [hd] <;> simp [hre]

/-- C2 witness: `readyTrueNoReasonRun` (no `completedAt`, Ready/`True`, no
reason, a `Failed` task that must be ignored) derives `Succeeded`. -/
theorem C2_ready_condition_status_witness :
    deriveWorkflowRunStatus readyTrueNoReasonRun = "Succeeded" := by
  have h :=
    (C2_ready_condition_status readyTrueNoReasonRun ⟨"Ready", "True", none⟩
      (by decide) (by decide)).2 (Or.inl rfl)
  simpa using h

/-- C3: for every RunRecord with no `completedAt` and no Ready condition,
the deriver applies the fallback rules in order: `Failed` on any
`Failed`/`Error` task; else `Succeeded` when the task list is non-empty and
all tasks are `Succeeded`; else `Running` on any `Running` task; else
`Running` when `startedAt` is set; else `Pending`. -/
theorem C3_fallback_status (run : RunRecord)
    (hc : run.completedAtTruthy = false) (hrc : run.readyCondition = none) :
    deriveWorkflowRunStatus run =
      if run.tasksList.any taskFailedOrError then "Failed"
      else if !run.tasksList.isEmpty
          && run.tasksList.all (fun t => t.phase == some "Succeeded") then "Succeeded"
      else if run.tasksList.any (fun t => t.phase == some "Running") then "Running"
      else if run.startedAtTruthy then "Running"
      else "Pending" := by
  rw [derive_of_fallback run hc hrc]
  have hcond : (run.tasksList.all (fun t => t.phase == some "Succeeded")
        && decide (run.tasksList.length > 0))
      = (!run.tasksList.isEmpty
        && run.tasksList.all (fun t => t.phase == some "Succeeded")) := by
    cases run.tasksList <;> simp
  rw [hcond]

/-- C3 witness: a record with no `completedAt`, no conditions, no tasks and
no `startedAt` derives `Pending`. -/
theorem C3_fallback_status_witness : deriveWorkflowRunStatus ⟨none⟩ = "Pending" := by
  have h := C3_fallback_status ⟨none⟩ (by decide) (by decide)
  simpa using h

/-- C4: the status computed inline by `transformComponentWorkflowRun` equals
the status computed by `deriveWorkflowRunStatus` on every raw run record: the
two independent implementations are extensionally equal. -/
theorem C4_implementations_agree (run : RunRecord) :
    transformComponentWorkflowRunStatus run = deriveWorkflowRunStatus run :=
  transform_eq_derive run

/-- C5: the deriver is total and deterministic: every RunRecord — including
records with missing `completedAt`, missing or empty condition lists,
conditions without a reason, empty task lists and missing `startedAt` —
yields exactly one status string (one of the four fixed labels or a
non-empty Ready-condition reason), two evaluations on the same record agree,
and the all-fields-missing record defaults to `Pending`. -/
theorem C5_total_deterministic (run : RunRecord) :
    (∃! s : String, deriveWorkflowRunStatus run = s)
    ∧ deriveWorkflowRunStatus run = deriveWorkflowRunStatus run
    ∧ (deriveWorkflowRunStatus run = "Pending"
        ∨ deriveWorkflowRunStatus run = "Running"
        ∨ deriveWorkflowRunStatus run = "Succeeded"
        ∨ deriveWorkflowRunStatus run = "Failed"
        ∨ ∃ c r, run.readyCondition = some c ∧ c.reason = some r ∧ r ≠ ""
            ∧ deriveWorkflowRunStatus run = r)
    ∧ deriveWorkflowRunStatus ⟨none⟩ = "Pending" := by
  exact ⟨⟨deriveWorkflowRunStatus run, rfl, fun s hs => hs.symm⟩, rfl,
    derive_output_cases run, by decide⟩

/-- An uncompleted run whose Ready condition carries the empty-string reason
(used to witness C10). -/
def emptyReasonRun : RunRecord :=
  ⟨some ⟨none, none, some [⟨"Ready", "False", some ""⟩], none⟩⟩

/-- C10: both implementations treat an empty-string Ready-condition reason as
absent (JavaScript falsiness): with `completedAt` set and no `Failed`/`Error`
task the result is `Succeeded`; without `completedAt` the result is
`Succeeded` when the condition's status is `"True"` and `Running` otherwise;
and neither implementation ever returns the empty string as the status. -/
theorem C10_empty_reason_absent (run : RunRecord) (c : WfCondition)
    (hrc : run.readyCondition = some c) (hre : c.reason = some "") :
    (run.completedAtTruthy = true → run.tasksList.any taskFailedOrError = false →
        deriveWorkflowRunStatus run = "Succeeded"
        ∧ transformComponentWorkflowRunStatus run = "Succeeded")
    ∧ (run.completedAtTruthy = false →
        deriveWorkflowRunStatus run =
          (if c.status == "True" then "Succeeded" else "Running")
        ∧ transformComponentWorkflowRunStatus run =
          (if c.status == "True" then "Succeeded" else "Running"))
    ∧ (∀ run' : RunRecord, deriveWorkflowRunStatus run' ≠ ""
        ∧ transformComponentWorkflowRunStatus run' ≠ "") := by
  have hb : run.readyCondition.bind (fun x => x.reason) = some "" := by
    rw [hrc]
    simpa using hre
  refine ⟨fun hc ht => ?_, fun hc => ?_, fun run' => ?_⟩
  · constructor
    · rw [derive_of_completed run hc]
      simp [ht, hb]
    · rw [transform_eq_derive run, derive_of_completed run hc]
      simp [ht, hb]
  · constructor
    · rw [derive_of_ready run hc c hrc]
      simp [hre]
    · rw [transform_eq_derive run, derive_of_ready run hc c hrc]
      simp [hre]
  · exact ⟨derive_ne_empty run',
      by rw [transform_eq_derive run']; exact derive_ne_empty run'⟩

/-- C10 witness: `emptyReasonRun` (empty-string reason, status `"False"`, no
`completedAt`) derives `Running` under both implementations. -/
theorem C10_empty_reason_absent_witness :
    deriveWorkflowRunStatus emptyReasonRun = "Running"
    ∧ transformComponentWorkflowRunStatus emptyReasonRun = "Running" := by
  have h :=
    (C10_empty_reason_absent emptyReasonRun ⟨"Ready", "False", some ""⟩
      (by decide) rfl).2.1 (by decide)
  simpa using h

/-! ## Environment grouping (`fetchDataplanesWithEnvironments`) -/

/-- A transformed environment, restricted to the fields the grouping in
`fetchDataplanesWithEnvironments` reads (`namespaceName`, `dataPlaneRef`)
plus `name` for identity; the remaining response fields are carried along
unread by the grouping and are omitted. -/
structure Environment where
  name : String
  namespaceName : String
  dataPlaneRef : String
deriving Repr, DecidableEq

/-- The composite grouping key `` `${env.namespaceName}/${env.dataPlaneRef}` ``. -/
def environmentKey (env : Environment) : String :=
  env.namespaceName ++ "/" ++ env.dataPlaneRef

/-- One `environmentsByDataPlane` update: `Map.get(key).push(env)`, creating
the key with `[]` first when absent. A JS `Map` is modeled as an association
list in key-insertion order; pushing appends at the end of a group. -/
def mapPush : List (String × List Environment) → String → Environment →
    List (String × List Environment)
  | [], k, e => [(k, [e])]
  | (k₀, es) :: rest, k, e =>
    if k₀ == k then (k₀, es ++ [e]) :: rest
    else (k₀, es) :: mapPush rest k e

/-- `environmentsByDataPlane.get(key) || []`. -/
def mapLookup : List (String × List Environment) → String → List Environment
  | [], _ => []
  | (k₀, es) :: rest, k => if k₀ == k then es else mapLookup rest k

/-- The grouping loop of `fetchDataplanesWithEnvironments`
(`environments.forEach(...)` building `environmentsByDataPlane`). -/
def environmentsByDataPlane (envs : List Environment) :
    List (String × List Environment) :=
  envs.foldl (fun m e => mapPush m (environmentKey e) e) []

lemma mapLookup_mapPush (m : List (String × List Environment)) (k : String)
    (e : Environment) (q : String) :
    mapLookup (mapPush m k e) q =
      if q == k then mapLookup m q ++ [e] else mapLookup m q := by
  induction m with
  | nil =>
    by_cases h : q = k
    · subst h; simp [mapPush, mapLookup]
    · simp [mapPush, mapLookup, h, Ne.symm h]
  | cons hd rest ih =>
    obtain ⟨k₀, es⟩ := hd
    by_cases h₀ : k₀ = k
    · subst h₀
      by_cases h : q = k₀
      · subst h; simp [mapPush, mapLookup]
      · simp [mapPush, mapLookup, h, Ne.symm h]
    · by_cases h : q = k₀
      · subst h
        have hk : ¬ q = k := fun hq => h₀ (hq.symm ▸ rfl)
        simp [mapPush, mapLookup, h₀, hk]
      · simp [mapPush, mapLookup, h₀, Ne.symm h, ih]

lemma mapKeys_mapPush_mem (m : List (String × List Environment)) (k : String)
    (e : Environment) (hk : k ∈ m.map Prod.fst) :
    (mapPush m k e).map Prod.fst = m.map Prod.fst := by
  induction m with
  | nil => simp at hk
  | cons hd rest ih =>
    obtain ⟨k₀, es⟩ := hd
    by_cases h₀ : k₀ = k
    · subst h₀; simp [mapPush]
    · have hk' : k ∈ rest.map Prod.fst := by
        rcases (by simpa using hk) with h | h
        · exact absurd h.symm h₀
        · simpa using h
      simp [mapPush, h₀, ih hk']

lemma mapKeys_mapPush_not_mem (m : List (String × List Environment)) (k : String)
    (e : Environment) (hk : k ∉ m.map Prod.fst) :
    (mapPush m k e).map Prod.fst = m.map Prod.fst ++ [k] := by
  induction m with
  | nil => simp [mapPush]
  | cons hd rest ih =>
    obtain ⟨k₀, es⟩ := hd
    have h₀ : ¬ k₀ = k := fun h => hk (by simp [h])
    have hk' : k ∉ rest.map Prod.fst := fun h => hk (by simp [h])
    simp [mapPush, h₀, ih hk']

lemma mapKeys_mapPush_nodup (m : List (String × List Environment)) (k : String)
    (e : Environment) (hm : (m.map Prod.fst).Nodup) :
    ((mapPush m k e).map Prod.fst).Nodup := by
  by_cases hk : k ∈ m.map Prod.fst
  · rw [mapKeys_mapPush_mem m k e hk]; exact hm
  · rw [mapKeys_mapPush_not_mem m k e hk]
    simp [List.nodup_append, hm, hk]

lemma joinGroups_mapPush (m : List (String × List Environment)) (k : String)
    (e : Environment) :
    List.Perm ((mapPush m k e).map Prod.snd).flatten
      ((m.map Prod.snd).flatten ++ [e]) := by
  induction m with
  | nil => simp [mapPush]
  | cons hd rest ih =>
    obtain ⟨k₀, es⟩ := hd
    by_cases h₀ : k₀ = k
    · subst h₀
      simp only [mapPush, beq_self_eq_true, if_true, List.map_cons,
        List.flatten_cons]
      rw [List.append_assoc, List.append_assoc]
      exact List.Perm.append_left es List.perm_append_comm
    · have hne : (k₀ == k) = false := by simp [h₀]
      simp only [mapPush, hne, Bool.false_eq_true, if_false, List.map_cons,
        List.flatten_cons]
      rw [List.append_assoc]
      exact List.Perm.append_left es ih

lemma grouping_lookup_gen (l : List Environment)
    (m : List (String × List Environment)) (k : String) :
    mapLookup (l.foldl (fun acc e => mapPush acc (environmentKey e) e) m) k
      = mapLookup m k ++ l.filter (fun e => environmentKey e == k) := by
  induction l generalizing m with
  | nil => simp
  | cons e rest ih =>
    rw [List.foldl_cons, ih, mapLookup_mapPush]
    by_cases h : environmentKey e = k
    · simp [h, List.filter_cons, List.append_assoc]
    · simp [List.filter_cons, h, Ne.symm h]

lemma grouping_keys_nodup_gen (l : List Environment)
    (m : List (String × List Environment)) (hm : (m.map Prod.fst).Nodup) :
    (((l.foldl (fun acc e => mapPush acc (environmentKey e) e) m)).map
      Prod.fst).Nodup := by
  induction l generalizing m with
  | nil => exact hm
  | cons e rest ih =>
    exact ih _ (mapKeys_mapPush_nodup m (environmentKey e) e hm)

lemma grouping_join_gen (l : List Environment)
    (m : List (String × List Environment)) :
    List.Perm
      (((l.foldl (fun acc e => mapPush acc (environmentKey e) e) m)).map
        Prod.snd).flatten
      ((m.map Prod.snd).flatten ++ l) := by
  induction l generalizing m with
  | nil => simp
  | cons e rest ih =>
    rw [List.foldl_cons]
    have h1 := ih (mapPush m (environmentKey e) e)
    have h2 :=
      (joinGroups_mapPush m (environmentKey e) e).append_right rest
    have h3 := h1.trans h2
    rw [List.append_assoc] at h3
    simpa using h3

/-- C6: the environments-by-data-plane grouping partitions its input. The
group stored under any key `k` is exactly the input subsequence whose
composite key `namespaceName ++ "/" ++ dataPlaneRef` equals `k` (so insertion
order is preserved, same-named data planes in distinct namespaces get
distinct groups, and empty-string `dataPlaneRef` values are kept under the
`namespace ++ "/"` key); the stored keys are pairwise distinct; the
concatenation of all groups is a permutation of the input (each environment
exactly once, no loss, no duplication); and every input environment is a
member of the group at its own composite key. -/
theorem C6_grouping_partitions (envs : List Environment) :
    (∀ k, mapLookup (environmentsByDataPlane envs) k
        = envs.filter (fun e => environmentKey e == k))
    ∧ ((environmentsByDataPlane envs).map Prod.fst).Nodup
    ∧ List.Perm ((environmentsByDataPlane envs).map Prod.snd).flatten envs
    ∧ (∀ e ∈ envs, e ∈ mapLookup (environmentsByDataPlane envs)
        (e.namespaceName ++ "/" ++ e.dataPlaneRef)) := by
  refine ⟨fun k => ?_, ?_, ?_, fun e he => ?_⟩
  · simpa using grouping_lookup_gen envs [] k
  · exact grouping_keys_nodup_gen envs [] (by simp)
  · simpa using grouping_join_gen envs []
  · have h := grouping_lookup_gen envs [] (e.namespaceName ++ "/" ++ e.dataPlaneRef)
    simp only [environmentsByDataPlane]
    rw [show mapLookup [] (e.namespaceName ++ "/" ++ e.dataPlaneRef) = [] from rfl,
      List.nil_append] at h
    rw [h, List.mem_filter]
    exact ⟨he, by simp [environmentKey]⟩

/-! ## Binding counting (`fetchComponentCountsPerEnvironment`) -/

/-- The `spec` object of a release binding; `environment` is optional
(`binding.spec?.environment`). -/
structure BindingSpec where
  environment : Option String
deriving Repr, DecidableEq

/-- A release binding, restricted to the fields the aggregation reads:
`spec.environment` for counting and the status conditions for readiness. -/
structure ReleaseBinding where
  spec : Option BindingSpec
  conditions : List WfCondition
deriving Repr, DecidableEq

/-- One counter update of `componentCountsByEnvironment`:
`set(key, (get(key) || 0) + 1)` on the association-list model of a JS `Map`. -/
def bumpCount : List (String × Nat) → String → List (String × Nat)
  | [], k => [(k, 1)]
  | (k₀, n) :: rest, k =>
    if k₀ == k then (k₀, n + 1) :: rest else (k₀, n) :: bumpCount rest k

/-- The body of `bindings.forEach` in `fetchComponentCountsPerEnvironment`:
`const envName = binding.spec?.environment; if (envName) { ... }` — the
counter for `` `${component.namespaceName}/${envName}` `` is bumped only when
`envName` is truthy (present and non-empty). -/
def countBinding (m : List (String × Nat)) (ns : String) (b : ReleaseBinding) :
    List (String × Nat) :=
  match b.spec.bind (fun sp => sp.environment) with
  | some envName => if envName != "" then bumpCount m (ns ++ "/" ++ envName) else m
  | none => m

/-- The accumulation of `fetchComponentCountsPerEnvironment` over a list of
bindings, each paired with its component's `namespaceName`. -/
def countByEnvironment (bindings : List (String × ReleaseBinding)) :
    List (String × Nat) :=
  bindings.foldl (fun m p => countBinding m p.1 p.2) []

/-- Sum of all counter values of the returned map. -/
def sumCounts (m : List (String × Nat)) : Nat := (m.map Prod.snd).sum

/-- `componentCountsByEnvironment.get(key) || 0`. -/
def countLookup : List (String × Nat) → String → Nat
  | [], _ => 0
  | (k₀, n) :: rest, k => if k₀ == k then n else countLookup rest k

/-- Truthiness of a binding's `spec?.environment`. -/
def bindingEnvTruthy (b : ReleaseBinding) : Bool :=
  strTruthy (b.spec.bind (fun sp => sp.environment))

/-- The composite key a binding contributes to, when it contributes at all. -/
def bindingKey (ns : String) (b : ReleaseBinding) : Option String :=
  match b.spec.bind (fun sp => sp.environment) with
  | some envName =>
    if envName != "" then some (ns ++ "/" ++ envName) else none
  | none => none

lemma sumCounts_bumpCount (m : List (String × Nat)) (k : String) :
    sumCounts (bumpCount m k) = sumCounts m + 1 := by
  induction m with
  | nil => simp [bumpCount, sumCounts]
  | cons hd rest ih =>
    obtain ⟨k₀, n⟩ := hd
    by_cases h : k₀ = k
    · subst h; simp [bumpCount, sumCounts]; omega
    · have hne : (k₀ == k) = false := by simp [h]
      simp [bumpCount, sumCounts, hne] at ih ⊢
      omega

lemma countLookup_bumpCount (m : List (String × Nat)) (k q : String) :
    countLookup (bumpCount m k) q =
      if q == k then countLookup m q + 1 else countLookup m q := by
  induction m with
  | nil =>
    by_cases h : q = k
    · subst h; simp [bumpCount, countLookup]
    · simp [bumpCount, countLookup, h, Ne.symm h]
  | cons hd rest ih =>
    obtain ⟨k₀, n⟩ := hd
    by_cases h₀ : k₀ = k
    · subst h₀
      by_cases h : q = k₀
      · subst h; simp [bumpCount, countLookup]
      · simp [bumpCount, countLookup, h, Ne.symm h]
    · by_cases h : q = k₀
      · subst h
        have hk : ¬ q = k := fun hq => h₀ (hq.symm ▸ rfl)
        simp [bumpCount, countLookup, h₀, hk]
      · simp [bumpCount, countLookup, h₀, Ne.symm h, ih]

lemma sumCounts_countBinding (m : List (String × Nat)) (ns : String)
    (b : ReleaseBinding) :
    sumCounts (countBinding m ns b) =
      sumCounts m + (if bindingEnvTruthy b then 1 else 0) := by
  unfold countBinding bindingEnvTruthy
  cases hb : b.spec.bind (fun sp => sp.environment) with
  | none => simp [strTruthy]
  | some envName =>
    by_cases h : envName = ""
    · subst h; simp [strTruthy]
    · simp [strTruthy, h, sumCounts_bumpCount]

lemma countLookup_countBinding (m : List (String × Nat)) (ns : String)
    (b : ReleaseBinding) (q : String) :
    countLookup (countBinding m ns b) q =
      countLookup m q + (if bindingKey ns b == some q then 1 else 0) := by
  unfold countBinding bindingKey
  cases hb : b.spec.bind (fun sp => sp.environment) with
  | none => simp
  | some envName =>
    by_cases h : envName = ""
    · subst h; simp
    · by_cases hq : q = ns ++ "/" ++ envName
      · subst hq; simp [h, countLookup_bumpCount]
      · simp [h, hq, Ne.symm hq, countLookup_bumpCount]

lemma count_fold_sum (l : List (String × ReleaseBinding))
    (m : List (String × Nat)) :
    sumCounts (l.foldl (fun acc p => countBinding acc p.1 p.2) m)
      = sumCounts m + (l.filter (fun p => bindingEnvTruthy p.2)).length := by
  induction l generalizing m with
  | nil => simp
  | cons p rest ih =>
    rw [List.foldl_cons, ih, sumCounts_countBinding]
    by_cases h : bindingEnvTruthy p.2 = true
    · simp [List.filter_cons, h]; omega
    · rw [Bool.not_eq_true] at h
      simp [List.filter_cons, h]

lemma count_fold_lookup (l : List (String × ReleaseBinding))
    (m : List (String × Nat)) (q : String) :
    countLookup (l.foldl (fun acc p => countBinding acc p.1 p.2) m) q
      = countLookup m q
        + (l.filter (fun p => bindingKey p.1 p.2 == some q)).length := by
  induction l generalizing m with
  | nil => simp
  | cons p rest ih =>
    rw [List.foldl_cons, ih, countLookup_countBinding]
    by_cases h : (bindingKey p.1 p.2 == some q) = true
    · simp [List.filter_cons, h]; omega
    · rw [Bool.not_eq_true] at h
      simp [List.filter_cons, h]

/-- A binding whose `spec.environment` is the empty string. -/
def emptyEnvBinding : ReleaseBinding := ⟨some ⟨some ""⟩, []⟩

/-- C7 counterexample: the accumulation does not increment once per binding.
A binding whose `environment` is the empty string is processed but skipped
(`if (envName)` is falsy), so for the one-element input the sum of all
counter values is 0, not the number of bindings processed (1). -/
theorem C7_counterexample :
    sumCounts (countByEnvironment [("ns", emptyEnvBinding)])
      ≠ [("ns", emptyEnvBinding)].length := by decide

/-- C7 (amended): the accumulation increments the counter for the composite
key `namespaceName ++ "/" ++ environment` exactly once per binding whose
`environment` is present and non-empty (JavaScript-truthy), with no
deduplication of bindings of the same component; bindings without a truthy
environment are skipped. Consequently each key's counter equals the number
of contributing bindings with that key, and the sum of all values equals the
number of truthy-environment bindings processed — not the total number of
bindings. -/
theorem C7_count_per_binding (bindings : List (String × ReleaseBinding)) :
    sumCounts (countByEnvironment bindings)
      = (bindings.filter (fun p => bindingEnvTruthy p.2)).length
    ∧ ∀ k, countLookup (countByEnvironment bindings) k
        = (bindings.filter (fun p => bindingKey p.1 p.2 == some k)).length := by
  constructor
  · simpa [sumCounts] using count_fold_sum bindings []
  · intro k
    simpa [countLookup] using count_fold_lookup bindings [] k

/-! ## Batched best-effort aggregation (`fetchHealthyWorkloadCount`,
`fetchComponentCountsPerEnvironment`) -/

/-- A component identity, as passed to the aggregation endpoints. -/
structure Component where
  namespaceName : String
  projectName : String
  componentName : String
deriving Repr, DecidableEq

/-- `const batchSize = 10` — fixed batch width of the aggregation loops. -/
def batchSize : Nat := 10

/-- The `for (let i = 0; i < components.length; i += batchSize)` slicing:
`components.slice(i, i + batchSize)` for successive `i`. -/
def chunks : List Component → List (List Component)
  | [] => []
  | x :: xs => (x :: xs).take batchSize :: chunks ((x :: xs).drop batchSize)
termination_by l => l.length
decreasing_by simp [batchSize]; omega

lemma chunks_flatten_aux :
    ∀ (n : Nat) (l : List Component), l.length ≤ n → (chunks l).flatten = l := by
  intro n
  induction n with
  | zero =>
    intro l hl
    have h0 : l = [] := List.length_eq_zero.mp (Nat.le_zero.mp hl)
    subst h0
    simp [chunks]
  | succ n ih =>
    intro l hl
    match l with
    | [] => simp [chunks]
    | x :: xs =>
      rw [chunks.eq_def]
      simp only [List.flatten_cons]
      have hdrop := ih ((x :: xs).drop batchSize) (by
        simp only [List.length_drop, List.length_cons, batchSize]
        simp at hl
        omega)
      rw [hdrop, List.take_append_drop]

/-- Concatenating the batches restores the component list. -/
lemma chunks_flatten (l : List Component) : (chunks l).flatten = l :=
  chunks_flatten_aux l.length l le_rfl

/-- Modelled from the spec: `isReady` is imported from the external client
library `@openchoreo/openchoreo-client-node` and is not among the provided
sources. Per the spec, `isReady` "inspects the binding's own Ready
condition": a binding is healthy iff its condition of type `Ready` has
status `"True"`. -/
def isReady (b : ReleaseBinding) : Bool :=
  match b.conditions.find? (fun c => c.type == "Ready") with
  | some c => c.status == "True"
  | none => false

/-- Whether the per-component binding fetch succeeds. -/
def fetchOk (fetch : Component → Except String (List ReleaseBinding))
    (c : Component) : Bool :=
  match fetch c with
  | .ok _ => true
  | .error _ => false

/-- The warning message logged by the catch block of a failed per-component
fetch. -/
def warnMsg (c : Component) : String :=
  "Failed to fetch bindings for component " ++ c.namespaceName ++ "/"
    ++ c.projectName ++ "/" ++ c.componentName

/-- The per-component body of a `fetchHealthyWorkloadCount` batch promise:
on success, `bindings.filter(binding => isReady(binding)).length`; on a
caught failure, `return 0`. -/
def healthyContribution (fetch : Component → Except String (List ReleaseBinding))
    (c : Component) : Nat :=
  match fetch c with
  | .ok bindings => (bindings.filter isReady).length
  | .error _ => 0

/-- The warning emitted by that body's catch clause, if any. -/
def warnOf (fetch : Component → Except String (List ReleaseBinding))
    (c : Component) : Option String :=
  match fetch c with
  | .ok _ => none
  | .error _ => some (warnMsg c)

/-- `fetchHealthyWorkloadCount`: batches of `batchSize` components; within a
batch every per-component fetch is attempted (`Promise.all`, results paired
with requests in order), each contributing its Ready-binding count or 0 after
a caught, warned failure; the batch sum is added to the accumulator. Returns
the count together with the warnings logged along the way. -/
def fetchHealthyWorkloadCount
    (fetch : Component → Except String (List ReleaseBinding))
    (components : List Component) : Nat × List String :=
  (chunks components).foldl
    (fun acc batch =>
      (acc.1 + (batch.map (healthyContribution fetch)).sum,
       acc.2 ++ batch.filterMap (warnOf fetch)))
    (0, [])

/-- `fetchComponentCountsPerEnvironment`: same batching; a succeeding
component folds its bindings into the counter map keyed by
`` `${component.namespaceName}/${binding.spec?.environment}` ``; a failing
component is caught and only logs a warning. (The concurrent batch is
modeled in request order; each counter is increment-only, so its final
value does not depend on the interleaving.) -/
def fetchComponentCountsPerEnvironment
    (fetch : Component → Except String (List ReleaseBinding))
    (components : List Component) : List (String × Nat) × List String :=
  (chunks components).foldl
    (fun acc batch =>
      batch.foldl
        (fun a c =>
          match fetch c with
          | .ok bindings =>
            (bindings.foldl (fun m b => countBinding m c.namespaceName b) a.1, a.2)
          | .error _ => (a.1, a.2 ++ [warnMsg c]))
        acc)
    ([], [])

/-- The bindings a component contributes, tagged with its namespace; a
failing fetch contributes none. -/
def taggedBindings (fetch : Component → Except String (List ReleaseBinding))
    (c : Component) : List (String × ReleaseBinding) :=
  match fetch c with
  | .ok bindings => bindings.map (fun b => (c.namespaceName, b))
  | .error _ => []

lemma healthy_fold (fetch : Component → Except String (List ReleaseBinding)) :
    ∀ (bs : List (List Component)) (acc : Nat × List String),
      bs.foldl
        (fun acc batch =>
          (acc.1 + (batch.map (healthyContribution fetch)).sum,
           acc.2 ++ batch.filterMap (warnOf fetch)))
        acc
      = (acc.1 + (bs.flatten.map (healthyContribution fetch)).sum,
         acc.2 ++ bs.flatten.filterMap (warnOf fetch)) := by
  intro bs
  induction bs with
  | nil => intro acc; simp
  | cons b rest ih =>
    intro acc
    rw [List.foldl_cons, ih]
    simp [List.map_append, List.sum_append, List.filterMap_append,
      List.append_assoc, Nat.add_assoc]

lemma sum_contribution_filter (fetch : Component → Except String (List ReleaseBinding)) :
    ∀ comps : List Component,
      ((comps.filter (fun c => fetchOk fetch c)).map (healthyContribution fetch)).sum
        = (comps.map (healthyContribution fetch)).sum := by
  intro comps
  induction comps with
  | nil => simp
  | cons c rest ih =>
    cases hf : fetch c with
    | ok bs =>
      have hok : fetchOk fetch c = true := by simp [fetchOk, hf]
      simp [List.filter_cons, hok, ih]
    | error e =>
      have hok : fetchOk fetch c = false := by simp [fetchOk, hf]
      have hzero : healthyContribution fetch c = 0 := by
        simp [healthyContribution, hf]
      simp [List.filter_cons, hok, hzero, ih]

lemma filterMap_warnOf (fetch : Component → Except String (List ReleaseBinding)) :
    ∀ comps : List Component,
      comps.filterMap (warnOf fetch)
        = (comps.filter (fun c => !fetchOk fetch c)).map warnMsg := by
  intro comps
  induction comps with
  | nil => simp
  | cons c rest ih =>
    cases hf : fetch c with
    | ok bs =>
      have hw : warnOf fetch c = none := by simp [warnOf, hf]
      have hok : fetchOk fetch c = true := by simp [fetchOk, hf]
      simp [List.filterMap_cons, List.filter_cons, hw, hok, ih]
    | error e =>
      have hw : warnOf fetch c = some (warnMsg c) := by simp [warnOf, hf]
      have hok : fetchOk fetch c = false := by simp [fetchOk, hf]
      simp [List.filterMap_cons, List.filter_cons, hw, hok, ih]

lemma foldl_batches {β : Type _} (g : β → Component → β) :
    ∀ (bs : List (List Component)) (acc : β),
      bs.foldl (fun a batch => batch.foldl g a) acc = bs.flatten.foldl g acc := by
  intro bs
  induction bs with
  | nil => intro acc; simp
  | cons b rest ih =>
    intro acc
    rw [List.foldl_cons, List.flatten_cons, List.foldl_append, ih]

lemma counts_fold (fetch : Component → Except String (List ReleaseBinding)) :
    ∀ (comps : List Component) (m : List (String × Nat)) (w : List String),
      comps.foldl
        (fun a c =>
          match fetch c with
          | .ok bindings =>
            (bindings.foldl (fun mm b => countBinding mm c.namespaceName b) a.1, a.2)
          | .error _ => (a.1, a.2 ++ [warnMsg c]))
        (m, w)
      = ((comps.map (taggedBindings fetch)).flatten.foldl
            (fun acc p => countBinding acc p.1 p.2) m,
         w ++ (comps.filter (fun c => !fetchOk fetch c)).map warnMsg) := by
  intro comps
  induction comps with
  | nil => intro m w; simp
  | cons c rest ih =>
    intro m w
    rw [List.foldl_cons]
    cases hf : fetch c with
    | ok bs =>
      have hok : fetchOk fetch c = true := by simp [fetchOk, hf]
      have htag : taggedBindings fetch c = bs.map (fun b => (c.namespaceName, b)) := by
        simp [taggedBindings, hf]
      simp only [hf]
      rw [ih]
      simp [htag, List.foldl_append, List.foldl_map, List.filter_cons, hok]
    | error e =>
      have hok : fetchOk fetch c = false := by simp [fetchOk, hf]
      have htag : taggedBindings fetch c = [] := by simp [taggedBindings, hf]
      simp only [hf]
      rw [ih]
      simp [htag, List.filter_cons, hok, List.append_assoc]

/-- C8: per-item failures inside a batch are caught, warned and contribute
zero. `fetchHealthyWorkloadCount` returns the sum of Ready-binding counts
over the succeeding components only, with one warning per failing component;
`fetchComponentCountsPerEnvironment` computes exactly the counts of the
succeeding components' bindings (the failing components' bindings are left
out), again with one warning per failing component. Both totals are returned
as values for every fetch outcome — no exception reaches the caller. -/
theorem C8_per_item_failure_is_zero
    (fetch : Component → Except String (List ReleaseBinding))
    (components : List Component) :
    (fetchHealthyWorkloadCount fetch components).1
      = ((components.filter (fun c => fetchOk fetch c)).map
          (healthyContribution fetch)).sum
    ∧ (fetchHealthyWorkloadCount fetch components).2
      = (components.filter (fun c => !fetchOk fetch c)).map warnMsg
    ∧ (fetchComponentCountsPerEnvironment fetch components).1
      = countByEnvironment (components.map (taggedBindings fetch)).flatten
    ∧ (fetchComponentCountsPerEnvironment fetch components).2
      = (components.filter (fun c => !fetchOk fetch c)).map warnMsg := by
  have hh := healthy_fold fetch (chunks components) (0, [])
  rw [chunks_flatten components] at hh
  have hc := counts_fold fetch components [] []
  refine ⟨?_, ?_, ?_, ?_⟩
  · rw [fetchHealthyWorkloadCount, hh]
    simp [sum_contribution_filter fetch components]
  · rw [fetchHealthyWorkloadCount, hh]
    simp [filterMap_warnOf fetch components]
  · rw [fetchComponentCountsPerEnvironment, foldl_batches, chunks_flatten,
      counts_fold fetch components [] []]
    simp [countByEnvironment]
  · rw [fetchComponentCountsPerEnvironment, foldl_batches, chunks_flatten,
      counts_fold fetch components [] []]
    simp

/-! ## Top-level entity-list fetch (`DataPlaneInfoService.listDataPlanes`) -/

/-- A raw K8s-style data plane item as returned by a page of the dataplanes
endpoint. Only its identity matters for the error-propagation claim. -/
structure RawDataPlane where
  name : String
deriving Repr, DecidableEq

/-- A flat data plane response. -/
structure DataPlaneResponse where
  name : String
deriving Repr, DecidableEq

/-- Modelled from the spec: `transformDataPlane` lives in
`transformers/dataplane.ts`, which is not among the provided sources; the
spec describes the transformers as pure reshapings of raw K8s-style records
into flat response shapes. Only purity matters for the claim settled here. -/
def transformDataPlane (dp : RawDataPlane) : DataPlaneResponse :=
  ⟨dp.name⟩

/-- Modelled from the spec: `fetchAllPages` comes from the external client
library and is not among the provided sources. Spec contract:
`fetchPage(cursor) -> {items, nextCursor}`, exhausted when the cursor is
absent, items accumulated across pages, and a thrown page error (the
`throw new Error(...)` inside `listDataPlanes`'s page callback on
`res.error`) aborts the accumulation. The cursor chain is represented by the
finite sequence of page results the collaborator produces. -/
def fetchAllPages :
    List (Except String (List RawDataPlane)) → Except String (List RawDataPlane)
  | [] => .ok []
  | p :: rest =>
    match p with
    | .error e => .error e
    | .ok items =>
      match fetchAllPages rest with
      | .error e => .error e
      | .ok acc => .ok (items ++ acc)

/-- `DataPlaneInfoService.listDataPlanes` (lines 41-72): awaits
`fetchAllPages` over the dataplanes endpoint and maps `transformDataPlane`
over the result; the surrounding catch block logs and rethrows the same
error (`throw error`), so a fetch failure propagates unchanged. -/
def listDataPlanes (pages : List (Except String (List RawDataPlane))) :
    Except String (List DataPlaneResponse) :=
  match fetchAllPages pages with
  | .error e => .error e
  | .ok items => .ok (items.map transformDataPlane)

/-- C9: when the underlying paginated fetch of the top-level entity list
fails, `listDataPlanes` fails as a whole: the error is propagated to the
caller unchanged and no (partial) entity list is returned. -/
theorem C9_top_level_failure_propagates
    (pages : List (Except String (List RawDataPlane))) (e : String)
    (h : fetchAllPages pages = .error e) :
    listDataPlanes pages = .error e
    ∧ ∀ l, listDataPlanes pages ≠ .ok l := by
  constructor
  · rw [listDataPlanes, h]
  · intro l
    rw [listDataPlanes, h]
    intro hcontra
    cases hcontra

/-- C9 witness: a single failing page makes `listDataPlanes` return exactly
that error. -/
theorem C9_top_level_failure_propagates_witness :
    fetchAllPages [Except.error "network failure"] = Except.error "network failure"
    ∧ listDataPlanes [Except.error "network failure"]
      = Except.error "network failure" :=
  ⟨rfl,
    (C9_top_level_failure_propagates [Except.error "network failure"]
      "network failure" rfl).1⟩
